import Mathlib

/-!
# EepromShim: the flash-emulated EEPROM backend

A shallow embedding of `src/EepromShim.cpp` / `src/EepromShim.h` for the
SAMD/SAM build (`EEPROM_h` undefined), where the EEPROM is emulated in a region of
QSPI NOR flash.

* Every function of the shim is a pure function that takes the flash device state and
  returns its result together with the new device state.
* The device state records the stored bytes and the sequence of driver calls issued so
  far, so that statements such as "issues no device operation" can be expressed.
* Serial console output (`SERIAL.print...`, `status`) has no effect on storage and is
  not modelled; flags that only select console output are carried but unused.
* Bytes (`uint8_t`) are natural numbers below 256; `int` offsets are integers;
  conversions to `uint32_t` / `uint16_t` are written as explicit remainders.
-/

namespace EepromShim

/-! ## Constants of `EepromShim.h` -/

/-- Flag `EE_NONE` (EepromShim.h:47). -/
def EE_NONE : Nat := 0x00
/-- Flag `EE_INIT` (EepromShim.h:48). -/
def EE_INIT : Nat := 0x01
/-- Flag `EE_DUMP` (EepromShim.h:49). -/
def EE_DUMP : Nat := 0x02
/-- Flag `EE_FORCE` (EepromShim.h:50). -/
def EE_FORCE : Nat := 0x08
/-- Flag `EE_SILENT` (EepromShim.h:51). -/
def EE_SILENT : Nat := 0x80

/-- Conversion of an address expression to the `uint32_t` parameter of a driver call. -/
def addr32 (a : Nat) : Nat := a % 2 ^ 32

/-- Build-time configuration: the macros of `EepromShim.h` that a project may override,
and the layout of the project's `Configuration` record (declared in the including
project's `config.h`, not in this repository). -/
structure Params where
  /-- Macro `EEPROM_SIZE` (an `int` constant, default 4096). -/
  EEPROM_SIZE : Nat
  /-- Macro `EEPROM_FLASH_BASE_ADDR` (default 0x100000). -/
  EEPROM_FLASH_BASE_ADDR : Nat
  /-- Macro `EEPROM_CONFIG_ADDRESS` (default 0x00). -/
  EEPROM_CONFIG_ADDRESS : Nat
  /-- Macro `EEPROM_CONFIG_VERSION` (default 1). -/
  EEPROM_CONFIG_VERSION : Nat
  /-- The value of `sizeof(Configuration)`. -/
  sizeofConfiguration : Nat
  /-- Byte offset of the `bool loaded` member inside `Configuration`. -/
  loadedOffset : Nat
  /-- Object representation of a default-constructed `Configuration`. -/
  defaultConfiguration : List Nat

/-! ## The flash device -/

/-- A call to the flash driver, as recorded in the device log. -/
inductive DevOp where
  | read8 (addr : Nat)
  | readBuffer (addr len : Nat)
  | writeBuffer (addr : Nat) (data : List Nat)
  | syncBlocks
  | eraseSector (addr : Nat)
  deriving DecidableEq, Repr

/-- Modelled from the spec: the external QSPI NOR flash device (the `Adafruit_SPIFlash`
driver object `flash`, which is not part of this repository). `mem` is the byte stored at
each absolute flash address, `eraseOk` tells for each address whether a sector erase
issued there succeeds on this device, and `log` is the sequence of driver calls so far. -/
structure Flash where
  mem : Nat → Nat
  eraseOk : Nat → Bool
  log : List DevOp

/-- Sector size of the device: "fixed-size erase sectors (4096 bytes each)". -/
def SECTOR_SIZE : Nat := 4096

namespace Flash

/-- Modelled from the spec: driver call `read8(addr) -> byte`. -/
def read8 (f : Flash) (addr : Nat) : Nat × Flash :=
  (f.mem addr, { f with log := f.log ++ [DevOp.read8 addr] })

/-- Modelled from the spec: driver call `readBuffer(addr, buf, len)`; the result is the
content of `buf` afterwards. -/
def readBuffer (f : Flash) (addr len : Nat) : List Nat × Flash :=
  ((List.range len).map (fun k => f.mem (addr + k)),
   { f with log := f.log ++ [DevOp.readBuffer addr len] })

/-- Modelled from the spec: the effect of programming `data` at `addr` on NOR flash.
"A bit can be cleared (1→0) by a direct write, but can only be restored (0→1) by
erasing the entire containing sector": every programmed byte becomes the bitwise AND of
its previous content and the byte written; all other bytes keep their value. -/
def program (m : Nat → Nat) (addr : Nat) (data : List Nat) : Nat → Nat :=
  fun a => if addr ≤ a ∧ a < addr + data.length then m a &&& data.getD (a - addr) 0xFF else m a

/-- Modelled from the spec: driver call `writeBuffer(addr, buf, len)`. Its returned
status is discarded at every call site of the shim and is therefore not part of the
result. -/
def writeBuffer (f : Flash) (addr : Nat) (data : List Nat) : Flash :=
  { f with mem := program f.mem addr data, log := f.log ++ [DevOp.writeBuffer addr data] }

/-- Modelled from the spec: driver call `syncBlocks()`; the shim writes directly, so
there is nothing buffered and stored bytes are unaffected. -/
def syncBlocks (f : Flash) : Flash :=
  { f with log := f.log ++ [DevOp.syncBlocks] }

/-- Modelled from the spec: driver call `eraseSector(addr) -> bool`. On success every
byte of the erase sector containing `addr` is reset to all-1-bits (0xFF); on failure
the stored bytes are left as they are. -/
def eraseSector (f : Flash) (addr : Nat) : Bool × Flash :=
  if f.eraseOk addr then
    (true, { f with
      mem := fun a => if a / SECTOR_SIZE = addr / SECTOR_SIZE then 0xFF else f.mem a,
      log := f.log ++ [DevOp.eraseSector addr] })
  else
    (false, { f with log := f.log ++ [DevOp.eraseSector addr] })

end Flash

/-- Number of `writeBuffer` calls in a device log. -/
def writeCount (l : List DevOp) : Nat :=
  (l.filter (fun op => match op with | DevOp.writeBuffer _ _ => true | _ => false)).length

/-- Number of `eraseSector` calls in a device log. -/
def eraseCount (l : List DevOp) : Nat :=
  (l.filter (fun op => match op with | DevOp.eraseSector _ => true | _ => false)).length

/-! ## Byte and typed access (EepromShim.cpp:38-103) -/

/-- Template `get<T>` (EepromShim.cpp:38-50). The object `t` is given by its object
representation, so `sizeof(T)` is `t.length`. The bound `idx + sizeof(T) > EEPROM_SIZE`
is evaluated in `size_t`, hence the remainder. -/
def get (P : Params) (idx : Int) (t : List Nat) (f : Flash) : List Nat × Flash :=
  if idx < 0 ∨ (idx.toNat + t.length) % 2 ^ 32 > P.EEPROM_SIZE then (t, f)
  else f.readBuffer (addr32 (P.EEPROM_FLASH_BASE_ADDR + idx.toNat)) t.length

/-- Template `put<T>` (EepromShim.cpp:52-65). The returned reference is the argument
itself, so only the device state is returned. -/
def put (P : Params) (idx : Int) (t : List Nat) (f : Flash) : Flash :=
  if idx < 0 ∨ (idx.toNat + t.length) % 2 ^ 32 > P.EEPROM_SIZE then f
  else (f.writeBuffer (addr32 (P.EEPROM_FLASH_BASE_ADDR + idx.toNat)) t).syncBlocks

/-- Function `read` (EepromShim.cpp:67-76). -/
def read (P : Params) (idx : Int) (f : Flash) : Nat × Flash :=
  if idx < 0 ∨ idx ≥ P.EEPROM_SIZE then (0xFF, f)
  else f.read8 (addr32 (P.EEPROM_FLASH_BASE_ADDR + idx.toNat))

/-- Function `write` (EepromShim.cpp:78-88). -/
def write (P : Params) (idx : Int) (val : Nat) (f : Flash) : Flash :=
  if idx < 0 ∨ idx ≥ P.EEPROM_SIZE then f
  else (f.writeBuffer (addr32 (P.EEPROM_FLASH_BASE_ADDR + idx.toNat)) [val]).syncBlocks

/-- Function `update` (EepromShim.cpp:90-103). -/
def update (P : Params) (idx : Int) (val : Nat) (f : Flash) : Flash :=
  if idx < 0 ∨ idx ≥ P.EEPROM_SIZE then f
  else
    let r := f.read8 (addr32 (P.EEPROM_FLASH_BASE_ADDR + idx.toNat))
    if r.1 ≠ val then
      (r.2.writeBuffer (addr32 (P.EEPROM_FLASH_BASE_ADDR + idx.toNat)) [val]).syncBlocks
    else r.2

/-! ## Flash maintenance (EepromShim.cpp:436-484) -/

/-- The loop of `eraseFlash` (EepromShim.cpp:466-477): `remaining` iterations are left,
`i` is the loop counter. -/
def eraseLoop (P : Params) : (remaining : Nat) → (i : Nat) → Flash → Bool × Flash
  | 0, _, f => (true, f)
  | remaining + 1, i, f =>
    let r := f.eraseSector (addr32 (P.EEPROM_FLASH_BASE_ADDR + i * 4096))
    if r.1 = false then (false, r.2) else eraseLoop P remaining (i + 1) r.2

/-- Function `eraseFlash` (EepromShim.cpp:458-484); `flags` only selects console
output. -/
def eraseFlash (P : Params) (_flags : Nat) (f : Flash) : Bool × Flash :=
  let sectorsNeeded := ((P.EEPROM_SIZE + 4095) / 4096) % 2 ^ 32
  eraseLoop P sectorsNeeded 0 f

/-- The erase calls issued by loop iterations `i, i+1, ..., i+r-1` of `eraseFlash`, with
the sector address as the code computes it. -/
def sectorOps (P : Params) (i r : Nat) : List DevOp :=
  (List.range r).map
    (fun j => DevOp.eraseSector (addr32 (P.EEPROM_FLASH_BASE_ADDR + (i + j) * 4096)))

/-- The erase calls at `BASE, BASE + 4096, ..., BASE + (m - 1) * 4096`, in this order. -/
def eraseCalls (P : Params) (m : Nat) : List DevOp :=
  (List.range m).map (fun i => DevOp.eraseSector (P.EEPROM_FLASH_BASE_ADDR + i * 4096))

/-- Function `checkFlash` (EepromShim.cpp:436-456). -/
def checkFlash (P : Params) (flags : Nat) (f : Flash) : Bool × Flash :=
  let testAddr : Int := ((P.EEPROM_SIZE : Int) - 1) % 65536
  let r0 := read P testAddr f
  let initial := r0.1
  let f1 := write P testAddr 0xAA r0.2
  let r1 := read P testAddr f1
  if r1.1 ≠ 0xAA then
    if flags &&& EE_INIT ≠ 0 then (false, (eraseFlash P flags r1.2).2)
    else (false, r1.2)
  else
    (true, write P testAddr initial r1.2)

/-! ## The configuration record (EepromShim.cpp:105-129, 365-382) -/

/-- Modelled from the spec: the `Configuration` record, declared by the including
project and absent from this repository, as its object representation (a list of
`sizeofConfiguration` bytes). "First field is a one-byte-or-wider version tag"; the
one-byte case is modelled, and `loaded` is a `bool` member at `loadedOffset`. -/
abbrev Configuration := List Nat

/-- Member access `config.version`. -/
def Configuration.version (c : Configuration) : Nat := c.getD 0 0

/-- Member access `config.loaded`. -/
def Configuration.loaded (P : Params) (c : Configuration) : Bool := c.getD P.loadedOffset 0 != 0

/-- Assignment `config.loaded = true`. -/
def Configuration.setLoaded (P : Params) (c : Configuration) : Configuration :=
  c.set P.loadedOffset 1

/-- Assignment `defaults.version = EEPROM_CONFIG_VERSION` to the one-byte member. -/
def Configuration.setVersion (c : Configuration) (v : Nat) : Configuration :=
  c.set 0 (v % 256)

/-- Function `setConfig` (EepromShim.cpp:365-372); `flags` only selects console
output. -/
def setConfig (P : Params) (config : Configuration) (_flags : Nat) (f : Flash) : Flash :=
  put P P.EEPROM_CONFIG_ADDRESS config f

/-- The record `defaults` built in the fallback branch of `getConfig`
(EepromShim.cpp:118-119). -/
def defaultsRecord (P : Params) : Configuration :=
  Configuration.setVersion P.defaultConfiguration P.EEPROM_CONFIG_VERSION

/-- Function `getConfig` (EepromShim.cpp:105-129). `Configuration config = {}` is the
zero-initialised record; the console output of `status` is not modelled. -/
def getConfig (P : Params) (flags : Nat) (f : Flash) : Configuration × Flash :=
  let r := get P P.EEPROM_CONFIG_ADDRESS (List.replicate P.sizeofConfiguration 0) f
  if Configuration.version r.1 = P.EEPROM_CONFIG_VERSION then
    (Configuration.setLoaded P r.1, r.2)
  else
    if flags &&& EE_INIT ≠ 0 then
      (defaultsRecord P,
       setConfig P (defaultsRecord P) EE_NONE (checkFlash P (flags ||| EE_INIT) r.2).2)
    else
      (defaultsRecord P, r.2)

/-- The loop of `wipeConfig` (EepromShim.cpp:376-377), for a counter that runs over
`count` consecutive offsets starting at `i`. -/
def wipeLoop (P : Params) : (count : Nat) → (i : Nat) → Flash → Flash
  | 0, _, f => f
  | count + 1, i, f => wipeLoop P count (i + 1) (update P i 0xFF f)

/-- Function `wipeConfig` (EepromShim.cpp:374-382). The counter `i` is a `uint16_t`
compared against a `size_t` bound: when the bound exceeds 65535 the counter wraps and
the loop never ends, which is the result `none`. -/
def wipeConfig (P : Params) (_flags : Nat) (f : Flash) : Option Flash :=
  let start := P.EEPROM_CONFIG_ADDRESS % 65536
  let bound := (P.EEPROM_CONFIG_ADDRESS + P.sizeofConfiguration) % 2 ^ 32
  if bound ≤ start then some f
  else if bound ≤ 65535 then some (wipeLoop P (bound - start) start f)
  else none

/-- The version tag of the record currently stored at the config offset, as `getConfig`
obtains it: member `version` of the zero-initialised record after `get`. -/
def storedVersion (P : Params) (f : Flash) : Nat :=
  Configuration.version
    (get P P.EEPROM_CONFIG_ADDRESS (List.replicate P.sizeofConfiguration 0) f).1

/-- Repeated calls: `getConfig` called `n` times in a row, with the records returned in
call order and the device state after the last call. -/
def getConfigTimes (P : Params) (flags : Nat) : Nat → Flash → List Configuration × Flash
  | 0, f => ([], f)
  | n + 1, f =>
    let r := getConfig P flags f
    let rest := getConfigTimes P flags n r.2
    (r.1 :: rest.1, rest.2)

/-! ## Import from a text file (EepromShim.cpp:183-277)

`load` reads a text file line by line through the SD-card helper and the Arduino
`String` class, both outside this repository. An Arduino `String` is modelled as its
list of characters, and the library calls that `load` uses are modelled by their
documented behaviour. The variables `total` and `initial` of `load` only feed console
output and are not modelled. -/

/-- An Arduino `String` as its sequence of characters. -/
abbrev Text := List Char

/-- C library `isspace` in the "C" locale: space, and the controls 9 (tab) to 13. -/
def isspace (c : Char) : Bool := c.toNat = 32 || (9 ≤ c.toNat && c.toNat ≤ 13)

/-- Arduino `String::trim()`: leading and trailing whitespace removed. -/
def trim (s : Text) : Text := ((s.dropWhile isspace).reverse.dropWhile isspace).reverse

/-- Arduino `String::indexOf(ch)`: index of the first occurrence, or -1. -/
def indexOf (s : Text) (ch : Char) : Int :=
  if ch ∈ s then (s.indexOf ch : Int) else -1

/-- Arduino `String::substring(left, right)`: the characters from `left` up to but not
including `right`; the bounds are swapped when `left > right`, the result is empty when
`left` is beyond the end, and `right` is capped at the length. -/
def substring (s : Text) (left right : Nat) : Text :=
  if min left right ≥ s.length then []
  else (s.take (min (max left right) s.length)).drop (min left right)

/-- Arduino `String::substring(left)`: the characters from `left` to the end. -/
def substringFrom (s : Text) (left : Nat) : Text := substring s left s.length

/-- Value of a character as a digit for `strtol`: 0-9, then a-z / A-Z as 10-35. -/
def digitVal (c : Char) : Option Nat :=
  if 48 ≤ c.toNat ∧ c.toNat ≤ 57 then some (c.toNat - 48)
  else if 97 ≤ c.toNat ∧ c.toNat ≤ 122 then some (c.toNat - 97 + 10)
  else if 65 ≤ c.toNat ∧ c.toNat ≤ 90 then some (c.toNat - 65 + 10)
  else none

/-- The digit loop of `strtol`: digits of the given base are accumulated until the
first character that is not one. -/
def parseDigits (base : Nat) : Text → Nat → Nat
  | [], acc => acc
  | c :: rest, acc =>
    match digitVal c with
    | some d => if d < base then parseDigits base rest (acc * base + d) else acc
    | none => acc

/-- Sign handling of `strtol`: an optional `+` or `-`. -/
def splitSign : Text → Bool × Text
  | '-' :: rest => (true, rest)
  | '+' :: rest => (false, rest)
  | s => (false, s)

/-- Base selection of `strtol` for base 0 or 16: a leading `0x` / `0X` is skipped and
selects base 16; with base 0 a leading `0` selects base 8 and anything else base 10. -/
def selectBase (base : Nat) : Text → Nat × Text
  | '0' :: 'x' :: rest => if base = 0 ∨ base = 16 then (16, rest) else (base, '0' :: 'x' :: rest)
  | '0' :: 'X' :: rest => if base = 0 ∨ base = 16 then (16, rest) else (base, '0' :: 'X' :: rest)
  | '0' :: rest => if base = 0 then (8, '0' :: rest) else (base, '0' :: rest)
  | s => if base = 0 then (10, s) else (base, s)

/-- C library `strtol(str, nullptr, base)` with a 32-bit `long`: leading whitespace,
optional sign, base selection, digits; the result is clamped to the range of `long`. -/
def strtol (s : Text) (base : Nat) : Int :=
  let signed := splitSign (s.dropWhile isspace)
  let based := selectBase base signed.2
  let magnitude : Int := parseDigits based.1 based.2 0
  let value : Int := if signed.1 then -magnitude else magnitude
  max (-(2 ^ 31)) (min (2 ^ 31 - 1) value)

/-- Conversion of an `int` / `long` value to `int16_t`. -/
def toInt16 (x : Int) : Int := (x + 32768) % 65536 - 32768

/-- Conversion of an `int` / `long` value to `uint16_t`. -/
def toUInt16 (x : Int) : Int := x % 65536

/-- Conversion of an `int` / `long` value to `uint8_t`. -/
def toUInt8 (x : Int) : Nat := (x % 256).toNat

/-- How the inner loop of `load` ends: normally, or by the `return false` of the range
check. -/
inductive DataResult where
  | done (f : Flash)
  | outOfRange (f : Flash)

/-- The inner loop of `load` over the data bytes of one line
(EepromShim.cpp:240-257). Every iteration removes at least one character from
`dataStr`, so `fuel` iterations suffice when `fuel` is at least its length; `none` is
the result of running out of fuel. -/
def loadData (P : Params) (address offset : Int) :
    (fuel : Nat) → (dataStr : Text) → (count : Int) → Flash → Option DataResult
  | 0, dataStr, _, f => if dataStr.length = 0 then some (DataResult.done f) else none
  | fuel + 1, dataStr, count, f =>
    if dataStr.length = 0 then some (DataResult.done f)
    else if address + offset + count ≥ P.EEPROM_SIZE then some (DataResult.outOfRange f)
    else
      loadData P address offset fuel (trim (substringFrom dataStr 2)) (toUInt16 (count + 1))
        (update P (address + offset + count) (toUInt8 (strtol (substring dataStr 0 2) 16)) f)

/-- The outer loop of `load` over the lines after the header
(EepromShim.cpp:209-260); `offset` is the `int16_t` variable of that name. -/
def loadLines (P : Params) (start : Int) : List String → (offset : Int) → Flash →
    Option (Bool × Flash)
  | [], _, f => some (true, f)
  | raw :: rest, offset, f =>
    let line := trim raw.toList
    if line.length > 0 ∧ line.head? ≠ some '#' then
      let sep := indexOf line ':'
      if sep > 0 then
        let addrStr := trim (substring line 0 sep.toNat)
        let dataStr := trim (substringFrom line (sep.toNat + 1))
        let address := toUInt16 (strtol addrStr 0)
        let offset1 := if start ≥ 0 ∧ offset = 0 then toInt16 (start - address) else offset
        match loadData P address offset1 dataStr.length dataStr 0 f with
        | none => none
        | some (DataResult.outOfRange g) => some (false, g)
        | some (DataResult.done g) => loadLines P start rest offset1 g
      else loadLines P start rest offset f
    else loadLines P start rest offset f

/-- Function `load` (EepromShim.cpp:183-277). The file is given by its lines in reading
order, `none` when the card cannot be started or the file cannot be opened; `start` is
the `int16_t` parameter and `flags` only selects console output. -/
def load (P : Params) (file : Option (List String)) (start : Int) (_flags : Nat) (f : Flash) :
    Option (Bool × Flash) :=
  match file with
  | none => some (false, f)
  | some lines =>
    if lines.headD "" ≠ "# eeprom" then some (false, f)
    else loadLines P start lines.tail 0 f

/-! ## Reference configurations and device states -/

/-- The default build: `EEPROM_SIZE` 4096, base address 0x100000, record at offset 0,
version 1, with an 8-byte `Configuration` whose `loaded` member is at offset 1. -/
def defaultParams : Params where
  EEPROM_SIZE := 4096
  EEPROM_FLASH_BASE_ADDR := 0x100000
  EEPROM_CONFIG_ADDRESS := 0
  EEPROM_CONFIG_VERSION := 1
  sizeofConfiguration := 8
  loadedOffset := 1
  defaultConfiguration := [0, 0, 0x10, 0x20, 0x30, 0x40, 0x50, 0x60]

/-- A device whose every byte holds `b`, on which every erase succeeds, before any
driver call. -/
def uniformFlash (b : Nat) : Flash where
  mem := fun _ => b
  eraseOk := fun _ => true
  log := []

/-- Freshly erased flash: all bytes 0xFF. -/
def erasedFlash : Flash := uniformFlash 0xFF

/-- A record with version 1, `loaded` false and a six-byte payload. -/
def sampleRecord : Configuration := [1, 0, 0xDE, 0xAD, 0xBE, 0xEF, 0x01, 0x02]

/-- Erased flash onto which `sampleRecord` has been saved with `setConfig`. -/
def savedFlash : Flash := setConfig defaultParams sampleRecord EE_NONE erasedFlash

/-- A well-formed export file with two data lines, at file addresses 0x0000 and
0x0010. -/
def sampleImage : List String := ["# eeprom", "0x0000: 01 02", "0x0010: 03 04"]

/-- The device after the first boot of the default build on freshly erased flash:
`getConfig(EE_INIT)` has run once and stored the version-1 default record. -/
def bootedFlash : Flash := (getConfig defaultParams EE_INIT erasedFlash).2

/-- The default build after a firmware update that raises `EEPROM_CONFIG_VERSION`
to 2. -/
def paramsVersion2 : Params := { defaultParams with EEPROM_CONFIG_VERSION := 2 }

/-- The default build with `EEPROM_SIZE` overridden to 8192 (two erase sectors). -/
def params8192 : Params := { defaultParams with EEPROM_SIZE := 8192 }

/-- Erased flash on a device on which no sector erase succeeds. -/
def stuckFlash : Flash where
  mem := fun _ => 0xFF
  eraseOk := fun _ => false
  log := []

/-! ## Basic facts about the device model -/

@[simp] theorem Flash.read8_fst (f : Flash) (a : Nat) : (f.read8 a).1 = f.mem a := rfl
@[simp] theorem Flash.read8_mem (f : Flash) (a : Nat) : (f.read8 a).2.mem = f.mem := rfl
@[simp] theorem Flash.read8_eraseOk (f : Flash) (a : Nat) :
    (f.read8 a).2.eraseOk = f.eraseOk := rfl
@[simp] theorem Flash.read8_log (f : Flash) (a : Nat) :
    (f.read8 a).2.log = f.log ++ [DevOp.read8 a] := rfl
@[simp] theorem Flash.readBuffer_fst (f : Flash) (a n : Nat) :
    (f.readBuffer a n).1 = (List.range n).map (fun k => f.mem (a + k)) := rfl
@[simp] theorem Flash.readBuffer_mem (f : Flash) (a n : Nat) :
    (f.readBuffer a n).2.mem = f.mem := rfl
@[simp] theorem Flash.readBuffer_eraseOk (f : Flash) (a n : Nat) :
    (f.readBuffer a n).2.eraseOk = f.eraseOk := rfl
@[simp] theorem Flash.readBuffer_log (f : Flash) (a n : Nat) :
    (f.readBuffer a n).2.log = f.log ++ [DevOp.readBuffer a n] := rfl
@[simp] theorem Flash.writeBuffer_mem (f : Flash) (a : Nat) (d : List Nat) :
    (f.writeBuffer a d).mem = Flash.program f.mem a d := rfl
@[simp] theorem Flash.writeBuffer_eraseOk (f : Flash) (a : Nat) (d : List Nat) :
    (f.writeBuffer a d).eraseOk = f.eraseOk := rfl
@[simp] theorem Flash.writeBuffer_log (f : Flash) (a : Nat) (d : List Nat) :
    (f.writeBuffer a d).log = f.log ++ [DevOp.writeBuffer a d] := rfl
@[simp] theorem Flash.syncBlocks_mem (f : Flash) : f.syncBlocks.mem = f.mem := rfl
@[simp] theorem Flash.syncBlocks_eraseOk (f : Flash) : f.syncBlocks.eraseOk = f.eraseOk := rfl
@[simp] theorem Flash.syncBlocks_log (f : Flash) :
    f.syncBlocks.log = f.log ++ [DevOp.syncBlocks] := rfl

/-- Programming a single byte: the addressed byte is ANDed, every other byte is kept. -/
theorem Flash.program_single (m : Nat → Nat) (a v b : Nat) :
    Flash.program m a [v] b = if b = a then m b &&& v else m b := by
  unfold Flash.program
  by_cases h : b = a
  · subst h; simp
  · have : ¬ (a ≤ b ∧ b < a + [v].length) := by simp; omega
    rw [if_neg this, if_neg h]

/-- Programming leaves every byte outside the programmed range untouched. -/
theorem Flash.program_outside (m : Nat → Nat) (a : Nat) (d : List Nat) (b : Nat)
    (h : b < a ∨ a + d.length ≤ b) : Flash.program m a d b = m b := by
  unfold Flash.program
  have : ¬ (a ≤ b ∧ b < a + d.length) := by omega
  simp [this]

/-- Programming inside the range ANDs the stored byte with the byte written there. -/
theorem Flash.program_inside (m : Nat → Nat) (a : Nat) (d : List Nat) (k : Nat)
    (h : k < d.length) : Flash.program m a d (a + k) = m (a + k) &&& d.getD k 0xFF := by
  unfold Flash.program
  have : a ≤ a + k ∧ a + k < a + d.length := by omega
  simp [this]

/-- An erased byte takes any byte value written to it: 0xFF AND v = v. -/
theorem erased_and (v : Nat) (hv : v < 256) : 0xFF &&& v = v := by
  have h := Nat.and_pow_two_sub_one_eq_mod v 8
  rw [Nat.and_comm] at h
  have e : (2 : Nat) ^ 8 - 1 = 0xFF := by norm_num
  rw [e] at h
  rw [h]
  exact Nat.mod_eq_of_lt (by simpa using hv)

@[simp] theorem writeCount_append (l1 l2 : List DevOp) :
    writeCount (l1 ++ l2) = writeCount l1 + writeCount l2 := by
  simp [writeCount]

@[simp] theorem eraseCount_append (l1 l2 : List DevOp) :
    eraseCount (l1 ++ l2) = eraseCount l1 + eraseCount l2 := by
  simp [eraseCount]

/-- In-range byte read, in terms of the stored bytes. -/
theorem read_in_range (P : Params) (idx : Int) (f : Flash)
    (h0 : 0 ≤ idx) (h1 : idx < P.EEPROM_SIZE) :
    (read P idx f).1 = f.mem (addr32 (P.EEPROM_FLASH_BASE_ADDR + idx.toNat)) := by
  have : ¬ (idx < 0 ∨ idx ≥ (P.EEPROM_SIZE : Int)) := by omega
  simp [read, this]

/-- Out-of-range byte read returns the sentinel and leaves the device alone. -/
theorem read_out_of_range (P : Params) (idx : Int) (f : Flash)
    (h : idx < 0 ∨ idx ≥ P.EEPROM_SIZE) : read P idx f = (0xFF, f) := by
  simp [read, h]

/-- The stored bytes after an in-range `write`. -/
theorem write_mem (P : Params) (idx : Int) (v : Nat) (f : Flash)
    (h0 : 0 ≤ idx) (h1 : idx < P.EEPROM_SIZE) :
    (write P idx v f).mem
      = Flash.program f.mem (addr32 (P.EEPROM_FLASH_BASE_ADDR + idx.toNat)) [v] := by
  have : ¬ (idx < 0 ∨ idx ≥ (P.EEPROM_SIZE : Int)) := by omega
  simp [write, this]

/-- Distinct in-range offsets are mapped to distinct flash addresses. -/
theorem addr_injective (P : Params) (p q : Int)
    (hfit : P.EEPROM_FLASH_BASE_ADDR + P.EEPROM_SIZE ≤ 2 ^ 32)
    (hp0 : 0 ≤ p) (hp1 : p < P.EEPROM_SIZE) (hq0 : 0 ≤ q) (hq1 : q < P.EEPROM_SIZE)
    (hne : p ≠ q) :
    addr32 (P.EEPROM_FLASH_BASE_ADDR + p.toNat) ≠ addr32 (P.EEPROM_FLASH_BASE_ADDR + q.toNat) := by
  unfold addr32
  have e1 : (P.EEPROM_FLASH_BASE_ADDR + p.toNat) % 2 ^ 32 = P.EEPROM_FLASH_BASE_ADDR + p.toNat :=
    Nat.mod_eq_of_lt (by omega)
  have e2 : (P.EEPROM_FLASH_BASE_ADDR + q.toNat) % 2 ^ 32 = P.EEPROM_FLASH_BASE_ADDR + q.toNat :=
    Nat.mod_eq_of_lt (by omega)
  rw [e1, e2]
  omega

/-! ## C1: write followed by read -/

/-- The value read back after an in-range `write` is the AND of old and written byte. -/
theorem read_after_write (P : Params) (idx : Int) (v : Nat) (f : Flash)
    (h0 : 0 ≤ idx) (h1 : idx < P.EEPROM_SIZE) :
    (read P idx (write P idx v f)).1 = (read P idx f).1 &&& v := by
  rw [read_in_range P idx _ h0 h1, read_in_range P idx _ h0 h1, write_mem P idx v f h0 h1,
    Flash.program_single]
  simp

/-- C1 (as stated, refuted): on a byte that holds 0x00, `write(0, 0xFF)` followed by
`read(0)` returns 0x00 and not the written 0xFF, because programming NOR flash cannot
set a cleared bit. -/
theorem write_read_counterexample :
    (read defaultParams 0 (write defaultParams 0 0xFF (uniformFlash 0))).1 = 0x00 ∧
    (read defaultParams 0 (write defaultParams 0 0xFF (uniformFlash 0))).1 ≠ 0xFF := by
  decide

/-- C1 (amended): for every in-range offset `idx`, every value `v` and every prior
storage state, `write(idx, v)` followed by `read(idx)` returns the bitwise AND of the
byte previously read at `idx` and `v`; in particular it returns `v` whenever the byte
was erased (0xFF) and `v` is a byte value. -/
theorem write_read_and (P : Params) (idx : Int) (v : Nat) (f : Flash)
    (h0 : 0 ≤ idx) (h1 : idx < P.EEPROM_SIZE) :
    (read P idx (write P idx v f)).1 = (read P idx f).1 &&& v ∧
    ((read P idx f).1 = 0xFF → v < 256 → (read P idx (write P idx v f)).1 = v) := by
  have key : (read P idx (write P idx v f)).1 = (read P idx f).1 &&& v :=
    read_after_write P idx v f h0 h1
  refine ⟨key, ?_⟩
  intro he hv
  rw [key, he]
  exact erased_and v hv

/-- Witness for `write_read_and`: offset 0 of the default build on erased flash. -/
theorem write_read_and_witness :
    (read defaultParams 0 (write defaultParams 0 0x5A erasedFlash)).1
        = (read defaultParams 0 erasedFlash).1 &&& 0x5A ∧
    (read defaultParams 0 (write defaultParams 0 0x5A erasedFlash)).1 = 0x5A :=
  ⟨(write_read_and defaultParams 0 0x5A erasedFlash (by decide) (by decide)).1,
   (write_read_and defaultParams 0 0x5A erasedFlash (by decide) (by decide)).2
     (by decide) (by decide)⟩

/-! ## C2: out-of-range accesses -/

/-- C2: every out-of-range access is a silent no-op. For `idx < 0` or
`idx >= EEPROM_SIZE`, `read` returns 0xFF and `read`, `write` and `update` return the
device state they were given; for `idx < 0` or `idx + sizeof(T) > EEPROM_SIZE`, `get`
returns `t` unmodified and `get` and `put` return the device state they were given. The
device state comprises the stored bytes and the log of driver calls, so no byte changes
and no device operation is issued. (`idx` is an `int` and an object is smaller than
2^31 bytes.) -/
theorem out_of_range_noop (P : Params) (idx : Int) (v : Nat) (t : List Nat) (f : Flash)
    (hidx : idx < 2 ^ 31) (ht : t.length < 2 ^ 31) :
    (idx < 0 ∨ idx ≥ P.EEPROM_SIZE →
      read P idx f = (0xFF, f) ∧ write P idx v f = f ∧ update P idx v f = f) ∧
    (idx < 0 ∨ idx + t.length > P.EEPROM_SIZE →
      get P idx t f = (t, f) ∧ put P idx t f = f) := by
  constructor
  · intro h
    simp [read, write, update, h]
  · intro h
    have hg : idx < 0 ∨ (idx.toNat + t.length) % 2 ^ 32 > P.EEPROM_SIZE := by
      rcases h with h | h
      · exact Or.inl h
      · by_cases hneg : idx < 0
        · exact Or.inl hneg
        · right
          have e : (idx.toNat + t.length) % 2 ^ 32 = idx.toNat + t.length :=
            Nat.mod_eq_of_lt (by omega)
          rw [e]
          omega
    unfold get put
    rw [if_pos hg, if_pos hg]
    exact ⟨rfl, rfl⟩

/-- Witness for `out_of_range_noop`: offset 4096 and a 4-byte object at offset 4094 of
the default build. -/
theorem out_of_range_noop_witness :
    (read defaultParams 4096 erasedFlash = (0xFF, erasedFlash) ∧
      write defaultParams 4096 0 erasedFlash = erasedFlash ∧
      update defaultParams 4096 0 erasedFlash = erasedFlash) ∧
    (get defaultParams 4094 [1, 2, 3, 4] erasedFlash = ([1, 2, 3, 4], erasedFlash) ∧
      put defaultParams 4094 [1, 2, 3, 4] erasedFlash = erasedFlash) :=
  ⟨(out_of_range_noop defaultParams 4096 0 [1, 2, 3, 4] erasedFlash (by decide) (by decide)).1
     (Or.inr (by decide)),
   (out_of_range_noop defaultParams 4094 0 [1, 2, 3, 4] erasedFlash (by decide) (by decide)).2
     (Or.inr (by decide))⟩

/-! ## C3: repeated update -/

/-- Device writes issued by one `update`: none when the byte read equals `v`. -/
theorem update_log_same (P : Params) (idx : Int) (v : Nat) (f : Flash)
    (h0 : 0 ≤ idx) (h1 : idx < P.EEPROM_SIZE) (he : (read P idx f).1 = v) :
    writeCount (update P idx v f).log = writeCount f.log ∧
    (update P idx v f).mem = f.mem := by
  have hr : ¬ (idx < 0 ∨ idx ≥ (P.EEPROM_SIZE : Int)) := by omega
  rw [read_in_range P idx f h0 h1] at he
  simp [update, hr, he, writeCount]

/-- Device writes issued by one `update`: one when the byte read differs from `v`. -/
theorem update_log_diff (P : Params) (idx : Int) (v : Nat) (f : Flash)
    (h0 : 0 ≤ idx) (h1 : idx < P.EEPROM_SIZE) (he : (read P idx f).1 ≠ v) :
    writeCount (update P idx v f).log = writeCount f.log + 1 ∧
    (update P idx v f).mem
      = Flash.program f.mem (addr32 (P.EEPROM_FLASH_BASE_ADDR + idx.toNat)) [v] := by
  have hr : ¬ (idx < 0 ∨ idx ≥ (P.EEPROM_SIZE : Int)) := by omega
  rw [read_in_range P idx f h0 h1] at he
  simp [update, hr, he, writeCount]

/-- One `update` issues at most one device write. -/
theorem update_log_le (P : Params) (idx : Int) (v : Nat) (f : Flash) :
    writeCount (update P idx v f).log ≤ writeCount f.log + 1 := by
  by_cases hr : idx < 0 ∨ idx ≥ (P.EEPROM_SIZE : Int)
  · simp [update, hr]
  · by_cases he : (read P idx f).1 = v
    · rw [(update_log_same P idx v f (by omega) (by omega) he).1]; omega
    · rw [(update_log_diff P idx v f (by omega) (by omega) he).1]

/-- C3 (as stated, refuted): on a byte that holds 0x00, two consecutive calls
`update(0, 0xFF)` issue two device writes: the first write cannot set the bits, so the
second call still reads a different value and writes again. -/
theorem update_twice_counterexample :
    writeCount (update defaultParams 0 0xFF (update defaultParams 0 0xFF (uniformFlash 0))).log
      = writeCount (uniformFlash 0).log + 2 := by
  decide

/-- C3 (amended): for every offset `idx`, every value `v` and every prior storage
state, two consecutive calls `update(idx, v)` issue at most two device writes, and at
most one whenever the byte read at `idx` beforehand has every bit of `v` set (so that
the first write makes the byte equal to `v`). -/
theorem update_twice_writes (P : Params) (idx : Int) (v : Nat) (f : Flash) :
    writeCount (update P idx v (update P idx v f)).log ≤ writeCount f.log + 2 ∧
    ((read P idx f).1 &&& v = v →
      writeCount (update P idx v (update P idx v f)).log ≤ writeCount f.log + 1) := by
  constructor
  · have a := update_log_le P idx v (update P idx v f)
    have b := update_log_le P idx v f
    omega
  · intro hbits
    by_cases hr : idx < 0 ∨ idx ≥ (P.EEPROM_SIZE : Int)
    · simp [update, hr]
    · have h0 : 0 ≤ idx := by omega
      have h1 : idx < P.EEPROM_SIZE := by omega
      by_cases he : (read P idx f).1 = v
      · have s1 := update_log_same P idx v f h0 h1 he
        have he2 : (read P idx (update P idx v f)).1 = v := by
          rw [read_in_range P idx _ h0 h1, s1.2, ← read_in_range P idx f h0 h1]; exact he
        have s2 := update_log_same P idx v (update P idx v f) h0 h1 he2
        rw [s2.1, s1.1]; omega
      · have s1 := update_log_diff P idx v f h0 h1 he
        have he2 : (read P idx (update P idx v f)).1 = v := by
          rw [read_in_range P idx _ h0 h1, s1.2, Flash.program_single]
          rw [read_in_range P idx f h0 h1] at hbits
          simpa using hbits
        have s2 := update_log_same P idx v (update P idx v f) h0 h1 he2
        rw [s2.1, s1.1]

/-- Witness for `update_twice_writes`: writing 0x5A twice to an erased byte. -/
theorem update_twice_writes_witness :
    (read defaultParams 0 erasedFlash).1 &&& 0x5A = 0x5A ∧
    writeCount (update defaultParams 0 0x5A (update defaultParams 0 0x5A erasedFlash)).log
        ≤ writeCount erasedFlash.log + 1 :=
  ⟨by decide, (update_twice_writes defaultParams 0 0x5A erasedFlash).2 (by decide)⟩

/-! ## C10: writes leave unrelated bytes alone -/

/-- The stored bytes after `update` are those before, or those after the same `write`. -/
theorem update_mem_cases (P : Params) (idx : Int) (v : Nat) (f : Flash) :
    (update P idx v f).mem = f.mem ∨ (update P idx v f).mem = (write P idx v f).mem := by
  by_cases hr : idx < 0 ∨ idx ≥ (P.EEPROM_SIZE : Int)
  · left; simp [update, hr]
  · by_cases he : f.mem (addr32 (P.EEPROM_FLASH_BASE_ADDR + idx.toNat)) = v
    · left; simp [update, hr, he]
    · right; simp [update, write, hr, he]

/-- The value read at an offset depends on the stored bytes only. -/
theorem read_congr (P : Params) (p : Int) (f g : Flash) (h : f.mem = g.mem) :
    (read P p f).1 = (read P p g).1 := by
  by_cases hr : p < 0 ∨ p ≥ (P.EEPROM_SIZE : Int)
  · simp [read, hr]
  · simp [read, hr, h]

/-- The stored bytes after an in-range `put`. -/
theorem put_mem (P : Params) (idx : Int) (t : List Nat) (f : Flash)
    (h0 : 0 ≤ idx) (h1 : idx + t.length ≤ P.EEPROM_SIZE) :
    (put P idx t f).mem
      = Flash.program f.mem (addr32 (P.EEPROM_FLASH_BASE_ADDR + idx.toNat)) t := by
  have e : (idx.toNat + t.length) % 2 ^ 32 ≤ P.EEPROM_SIZE :=
    le_trans (Nat.mod_le _ _) (by omega)
  have hg : ¬ (idx < 0 ∨ (idx.toNat + t.length) % 2 ^ 32 > P.EEPROM_SIZE) := by omega
  unfold put
  rw [if_neg hg]
  simp

/-- C10: writes never corrupt unrelated bytes. With the emulated region inside the
32-bit address space of the device, for every in-range `write(idx, v)` or
`update(idx, v)` every offset `p != idx` reads the same value after the call as before,
and for every in-range `put(idx, t)` every offset outside `[idx, idx + sizeof(T))`
reads the same value after the call as before. -/
theorem writes_frame (P : Params) (idx p : Int) (v : Nat) (t : List Nat) (f : Flash)
    (hfit : P.EEPROM_FLASH_BASE_ADDR + P.EEPROM_SIZE ≤ 2 ^ 32) :
    (0 ≤ idx → idx < P.EEPROM_SIZE → p ≠ idx →
      (read P p (write P idx v f)).1 = (read P p f).1 ∧
      (read P p (update P idx v f)).1 = (read P p f).1) ∧
    (0 ≤ idx → idx + t.length ≤ P.EEPROM_SIZE → (p < idx ∨ p ≥ idx + t.length) →
      (read P p (put P idx t f)).1 = (read P p f).1) := by
  constructor
  · intro h0 h1 hne
    have hw : (read P p (write P idx v f)).1 = (read P p f).1 := by
      by_cases hr : p < 0 ∨ p ≥ (P.EEPROM_SIZE : Int)
      · rw [read_out_of_range P p _ hr, read_out_of_range P p _ hr]
      · have hp0 : 0 ≤ p := by omega
        have hp1 : p < P.EEPROM_SIZE := by omega
        rw [read_in_range P p _ hp0 hp1, read_in_range P p _ hp0 hp1, write_mem P idx v f h0 h1,
          Flash.program_single, if_neg (addr_injective P p idx hfit hp0 hp1 h0 h1 hne)]
    refine ⟨hw, ?_⟩
    rcases update_mem_cases P idx v f with h | h
    · exact read_congr P p _ _ h
    · rw [read_congr P p _ _ h]; exact hw
  · intro h0 h1 hout
    by_cases hr : p < 0 ∨ p ≥ (P.EEPROM_SIZE : Int)
    · rw [read_out_of_range P p _ hr, read_out_of_range P p _ hr]
    · have hp0 : 0 ≤ p := by omega
      have hp1 : p < P.EEPROM_SIZE := by omega
      rw [read_in_range P p _ hp0 hp1, read_in_range P p _ hp0 hp1, put_mem P idx t f h0 h1]
      apply Flash.program_outside
      by_cases hlen : t.length = 0
      · omega
      · unfold addr32
        have e1 : (P.EEPROM_FLASH_BASE_ADDR + p.toNat) % 2 ^ 32
            = P.EEPROM_FLASH_BASE_ADDR + p.toNat := Nat.mod_eq_of_lt (by omega)
        have e2 : (P.EEPROM_FLASH_BASE_ADDR + idx.toNat) % 2 ^ 32
            = P.EEPROM_FLASH_BASE_ADDR + idx.toNat := Nat.mod_eq_of_lt (by omega)
        rw [e1, e2]
        omega

/-- Witness for `writes_frame`: after writing offset 5, and after putting a 4-byte
object at offset 4, offset 8 of erased flash still reads what it read before. -/
theorem writes_frame_witness :
    ((read defaultParams 8 (write defaultParams 5 0x12 erasedFlash)).1
        = (read defaultParams 8 erasedFlash).1 ∧
      (read defaultParams 8 (update defaultParams 5 0x12 erasedFlash)).1
        = (read defaultParams 8 erasedFlash).1) ∧
    (read defaultParams 8 (put defaultParams 4 [1, 2, 3, 4] erasedFlash)).1
        = (read defaultParams 8 erasedFlash).1 :=
  ⟨(writes_frame defaultParams 5 8 0x12 [1, 2, 3, 4] erasedFlash (by decide)).1
     (by decide) (by decide) (by decide),
   (writes_frame defaultParams 4 8 0x12 [1, 2, 3, 4] erasedFlash (by decide)).2
     (by decide) (by decide) (Or.inr (by decide))⟩

/-! ## C8: eraseFlash -/

theorem sectorOps_succ (P : Params) (i r : Nat) :
    sectorOps P i (r + 1)
      = DevOp.eraseSector (addr32 (P.EEPROM_FLASH_BASE_ADDR + i * 4096)) :: sectorOps P (i + 1) r := by
  unfold sectorOps
  rw [List.range_succ_eq_map, List.map_cons, List.map_map]
  simp only [Nat.add_zero, List.cons.injEq, true_and]
  apply List.map_congr_left
  intro j _
  have e : i + (j + 1) = i + 1 + j := by omega
  simp only [Function.comp, Nat.succ_eq_add_one, e]

theorem Flash.eraseSector_eraseOk (f : Flash) (a : Nat) :
    (f.eraseSector a).2.eraseOk = f.eraseOk := by
  unfold Flash.eraseSector
  split <;> rfl

theorem Flash.eraseSector_log (f : Flash) (a : Nat) :
    (f.eraseSector a).2.log = f.log ++ [DevOp.eraseSector a] := by
  unfold Flash.eraseSector
  split <;> rfl

theorem Flash.eraseSector_fst (f : Flash) (a : Nat) :
    (f.eraseSector a).1 = f.eraseOk a := by
  unfold Flash.eraseSector
  split <;> simp_all

/-- The erase loop when every remaining sector erases: all `r` calls are issued in
order and the loop reports success. -/
theorem eraseLoop_all_ok (P : Params) :
    ∀ (r i : Nat) (f : Flash),
      (∀ j, j < r → f.eraseOk (addr32 (P.EEPROM_FLASH_BASE_ADDR + (i + j) * 4096)) = true) →
      (eraseLoop P r i f).1 = true ∧
      (eraseLoop P r i f).2.log = f.log ++ sectorOps P i r := by
  intro r
  induction r with
  | zero => intro i f _; simp [eraseLoop, sectorOps]
  | succ r ih =>
    intro i f hok
    have h0 : f.eraseOk (addr32 (P.EEPROM_FLASH_BASE_ADDR + i * 4096)) = true := by
      simpa using hok 0 (by omega)
    have hrest : ∀ j, j < r →
        (f.eraseSector (addr32 (P.EEPROM_FLASH_BASE_ADDR + i * 4096))).2.eraseOk
          (addr32 (P.EEPROM_FLASH_BASE_ADDR + (i + 1 + j) * 4096)) = true := by
      intro j hj
      rw [Flash.eraseSector_eraseOk]
      have := hok (j + 1) (by omega)
      rw [show i + (j + 1) = i + 1 + j by omega] at this
      exact this
    have ih2 := ih (i + 1) _ hrest
    unfold eraseLoop
    simp only [Flash.eraseSector_fst, h0, Bool.true_eq_false, if_false]
    refine ⟨ih2.1, ?_⟩
    rw [ih2.2, Flash.eraseSector_log, sectorOps_succ]
    simp

/-- The erase loop when the sector of iteration `i + k` is the first that fails: the
calls up to and including that one are issued, none after it, and the loop reports
failure. -/
theorem eraseLoop_first_fail (P : Params) :
    ∀ (r i k : Nat) (f : Flash), k < r →
      (∀ j, j < k → f.eraseOk (addr32 (P.EEPROM_FLASH_BASE_ADDR + (i + j) * 4096)) = true) →
      f.eraseOk (addr32 (P.EEPROM_FLASH_BASE_ADDR + (i + k) * 4096)) = false →
      (eraseLoop P r i f).1 = false ∧
      (eraseLoop P r i f).2.log = f.log ++ sectorOps P i (k + 1) := by
  intro r
  induction r with
  | zero => intro i k f hk; omega
  | succ r ih =>
    intro i k f hk hok hfail
    cases k with
    | zero =>
      have h0 : f.eraseOk (addr32 (P.EEPROM_FLASH_BASE_ADDR + i * 4096)) = false := by
        simpa using hfail
      unfold eraseLoop
      simp only [Flash.eraseSector_fst, h0, if_true]
      refine ⟨trivial, ?_⟩
      rw [Flash.eraseSector_log, sectorOps_succ]
      simp [sectorOps]
    | succ k =>
      have h0 : f.eraseOk (addr32 (P.EEPROM_FLASH_BASE_ADDR + i * 4096)) = true := by
        simpa using hok 0 (by omega)
      have hrest : ∀ j, j < k →
          (f.eraseSector (addr32 (P.EEPROM_FLASH_BASE_ADDR + i * 4096))).2.eraseOk
            (addr32 (P.EEPROM_FLASH_BASE_ADDR + (i + 1 + j) * 4096)) = true := by
        intro j hj
        rw [Flash.eraseSector_eraseOk]
        have := hok (j + 1) (by omega)
        rw [show i + (j + 1) = i + 1 + j by omega] at this
        exact this
      have hfail2 : (f.eraseSector (addr32 (P.EEPROM_FLASH_BASE_ADDR + i * 4096))).2.eraseOk
            (addr32 (P.EEPROM_FLASH_BASE_ADDR + (i + 1 + k) * 4096)) = false := by
        rw [Flash.eraseSector_eraseOk]
        rw [show i + (k + 1) = i + 1 + k by omega] at hfail
        exact hfail
      have ih2 := ih (i + 1) k _ (by omega) hrest hfail2
      unfold eraseLoop
      simp only [Flash.eraseSector_fst, h0, Bool.true_eq_false, if_false]
      refine ⟨ih2.1, ?_⟩
      rw [ih2.2, Flash.eraseSector_log, sectorOps_succ P i (k + 1)]
      simp

/-- The sector count computed by `eraseFlash` is the ceiling of `EEPROM_SIZE / 4096`. -/
theorem sectorsNeeded_eq_ceil (n : Nat) : (n + 4095) / 4096 = ⌈(n : ℚ) / 4096⌉₊ := by
  apply le_antisymm
  · by_contra hlt
    push_neg at hlt
    have h1 : ((n : ℚ) / 4096) ≤ ((⌈(n : ℚ) / 4096⌉₊ : Nat) : ℚ) := Nat.le_ceil _
    have h2 : (n : ℚ) ≤ ((⌈(n : ℚ) / 4096⌉₊ : Nat) : ℚ) * 4096 := by
      rwa [div_le_iff₀ (by norm_num)] at h1
    have h3 : n ≤ ⌈(n : ℚ) / 4096⌉₊ * 4096 := by exact_mod_cast h2
    omega
  · rw [Nat.ceil_le, div_le_iff₀ (by norm_num)]
    have : n ≤ (n + 4095) / 4096 * 4096 := by omega
    exact_mod_cast this

theorem sectorOps_eq_eraseCalls (P : Params) (m : Nat)
    (hfit : P.EEPROM_FLASH_BASE_ADDR + P.EEPROM_SIZE ≤ 2 ^ 32)
    (hm : m ≤ (P.EEPROM_SIZE + 4095) / 4096) : sectorOps P 0 m = eraseCalls P m := by
  unfold sectorOps eraseCalls
  apply List.map_congr_left
  intro j hj
  have hj2 : j < m := List.mem_range.mp hj
  simp only [Nat.zero_add, addr32]
  rw [Nat.mod_eq_of_lt (by omega)]

theorem eraseCount_eraseCalls (P : Params) (m : Nat) : eraseCount (eraseCalls P m) = m := by
  unfold eraseCount eraseCalls
  rw [List.filter_eq_self.mpr]
  · simp
  · intro a ha
    simp only [List.mem_map] at ha
    obtain ⟨i, _, rfl⟩ := ha
    rfl

theorem sector_addr_fits (P : Params) (j : Nat)
    (hfit : P.EEPROM_FLASH_BASE_ADDR + P.EEPROM_SIZE ≤ 2 ^ 32)
    (hj : j < (P.EEPROM_SIZE + 4095) / 4096) :
    addr32 (P.EEPROM_FLASH_BASE_ADDR + (0 + j) * 4096) = P.EEPROM_FLASH_BASE_ADDR + j * 4096 := by
  unfold addr32
  rw [Nat.zero_add]
  exact Nat.mod_eq_of_lt (by omega)

/-- C8: with the emulated region inside the 32-bit address space, `eraseFlash` issues
sector erases at `BASE`, `BASE + 4096`, `BASE + 2 * 4096`, ... in that order. If all
`ceil(EEPROM_SIZE / 4096)` sectors erase, exactly that many erase calls are issued and
the result is true. If sector `k` is the first whose erase fails, the calls for sectors
`0..k` are issued, none for a later sector, and the result is false. -/
theorem eraseFlash_sectors (P : Params) (flags : Nat) (f : Flash)
    (hfit : P.EEPROM_FLASH_BASE_ADDR + P.EEPROM_SIZE ≤ 2 ^ 32) :
    ((∀ i, i < ⌈(P.EEPROM_SIZE : ℚ) / 4096⌉₊ →
        f.eraseOk (P.EEPROM_FLASH_BASE_ADDR + i * 4096) = true) →
      (eraseFlash P flags f).1 = true ∧
      (eraseFlash P flags f).2.log = f.log ++ eraseCalls P ⌈(P.EEPROM_SIZE : ℚ) / 4096⌉₊ ∧
      eraseCount (eraseFlash P flags f).2.log
        = eraseCount f.log + ⌈(P.EEPROM_SIZE : ℚ) / 4096⌉₊) ∧
    (∀ k, k < ⌈(P.EEPROM_SIZE : ℚ) / 4096⌉₊ →
      (∀ i, i < k → f.eraseOk (P.EEPROM_FLASH_BASE_ADDR + i * 4096) = true) →
      f.eraseOk (P.EEPROM_FLASH_BASE_ADDR + k * 4096) = false →
      (eraseFlash P flags f).1 = false ∧
      (eraseFlash P flags f).2.log = f.log ++ eraseCalls P (k + 1) ∧
      eraseCount (eraseFlash P flags f).2.log = eraseCount f.log + (k + 1)) := by
  rw [← sectorsNeeded_eq_ceil]
  have hn : ((P.EEPROM_SIZE + 4095) / 4096) % 2 ^ 32 = (P.EEPROM_SIZE + 4095) / 4096 :=
    Nat.mod_eq_of_lt (by omega)
  constructor
  · intro hok
    have h := eraseLoop_all_ok P ((P.EEPROM_SIZE + 4095) / 4096) 0 f (by
      intro j hj
      rw [sector_addr_fits P j hfit hj]
      exact hok j hj)
    have hlog : (eraseFlash P flags f).2.log
        = f.log ++ eraseCalls P ((P.EEPROM_SIZE + 4095) / 4096) := by
      unfold eraseFlash
      simp only [hn]
      rw [h.2, sectorOps_eq_eraseCalls P _ hfit (le_refl _)]
    refine ⟨?_, hlog, ?_⟩
    · unfold eraseFlash
      simp only [hn]
      exact h.1
    · rw [hlog, eraseCount_append, eraseCount_eraseCalls]
  · intro k hk hok hfail
    have h := eraseLoop_first_fail P ((P.EEPROM_SIZE + 4095) / 4096) 0 k f hk (by
      intro j hj
      rw [sector_addr_fits P j hfit (by omega)]
      exact hok j hj) (by
      rw [sector_addr_fits P k hfit hk]
      exact hfail)
    have hlog : (eraseFlash P flags f).2.log = f.log ++ eraseCalls P (k + 1) := by
      unfold eraseFlash
      simp only [hn]
      rw [h.2, sectorOps_eq_eraseCalls P _ hfit (by omega)]
    refine ⟨?_, hlog, ?_⟩
    · unfold eraseFlash
      simp only [hn]
      exact h.1
    · rw [hlog, eraseCount_append, eraseCount_eraseCalls]

/-- Witness for `eraseFlash_sectors`: with `EEPROM_SIZE` 4096 exactly one erase call is
issued, at the base address; with `EEPROM_SIZE` 8192 exactly two; and with
`EEPROM_SIZE` 8192 on a device whose first sector fails to erase, only that one call is
issued and the result is false. -/
theorem eraseFlash_sectors_witness :
    ((eraseFlash defaultParams EE_NONE erasedFlash).1 = true ∧
      eraseCount (eraseFlash defaultParams EE_NONE erasedFlash).2.log = 1) ∧
    ((eraseFlash params8192 EE_NONE erasedFlash).1 = true ∧
      eraseCount (eraseFlash params8192 EE_NONE erasedFlash).2.log = 2) ∧
    ((eraseFlash params8192 EE_NONE stuckFlash).1 = false ∧
      (eraseFlash params8192 EE_NONE stuckFlash).2.log = [DevOp.eraseSector 0x100000]) := by
  have c1 : ⌈((defaultParams.EEPROM_SIZE : Nat) : ℚ) / 4096⌉₊ = 1 := by
    rw [← sectorsNeeded_eq_ceil]; rfl
  have c2 : ⌈((params8192.EEPROM_SIZE : Nat) : ℚ) / 4096⌉₊ = 2 := by
    rw [← sectorsNeeded_eq_ceil]; rfl
  have h1 := (eraseFlash_sectors defaultParams EE_NONE erasedFlash (by decide)).1
    (fun _ _ => rfl)
  have h2 := (eraseFlash_sectors params8192 EE_NONE erasedFlash (by decide)).1
    (fun _ _ => rfl)
  have h3 := (eraseFlash_sectors params8192 EE_NONE stuckFlash (by decide)).2 0
    (by rw [c2]; decide) (fun i hi => absurd hi (Nat.not_lt_zero i)) rfl
  rw [c1] at h1
  rw [c2] at h2
  exact ⟨⟨h1.1, h1.2.2⟩, ⟨h2.1, h2.2.2⟩, ⟨h3.1, h3.2.1⟩⟩

/-! ## C7: getConfig on a valid stored record -/

/-- What `get` returns depends on the stored bytes only, and `get` changes no byte and
issues neither a write nor an erase. -/
theorem get_facts (P : Params) (idx : Int) (t : List Nat) (f : Flash) :
    (get P idx t f).2.mem = f.mem ∧
    (get P idx t f).2.eraseOk = f.eraseOk ∧
    writeCount (get P idx t f).2.log = writeCount f.log ∧
    eraseCount (get P idx t f).2.log = eraseCount f.log := by
  unfold get
  split
  · exact ⟨rfl, rfl, rfl, rfl⟩
  · simp [writeCount, eraseCount]

theorem get_congr (P : Params) (idx : Int) (t : List Nat) (f g : Flash) (h : f.mem = g.mem) :
    (get P idx t f).1 = (get P idx t g).1 := by
  unfold get
  split
  · rfl
  · simp [h]

theorem storedVersion_congr (P : Params) (f g : Flash) (h : f.mem = g.mem) :
    storedVersion P f = storedVersion P g := by
  unfold storedVersion
  rw [get_congr P _ _ f g h]

/-- The branch of `getConfig` taken when the stored version matches. -/
theorem getConfig_loaded (P : Params) (flags : Nat) (f : Flash)
    (h : storedVersion P f = P.EEPROM_CONFIG_VERSION) :
    getConfig P flags f
      = (Configuration.setLoaded P
          (get P P.EEPROM_CONFIG_ADDRESS (List.replicate P.sizeofConfiguration 0) f).1,
         (get P P.EEPROM_CONFIG_ADDRESS (List.replicate P.sizeofConfiguration 0) f).2) := by
  unfold storedVersion at h
  unfold getConfig
  simp only [h, if_true]

/-- C7: in every storage state whose stored version equals `EEPROM_CONFIG_VERSION`,
`getConfig` is idempotent: for every number `n` of repeated calls, all `n` returned
records are identical to the record of a single call, no stored byte changes, and no
device write or erase is issued. -/
theorem getConfig_idempotent (P : Params) (flags : Nat) (n : Nat) (f : Flash)
    (h : storedVersion P f = P.EEPROM_CONFIG_VERSION) :
    (getConfigTimes P flags n f).1 = List.replicate n (getConfig P flags f).1 ∧
    (getConfigTimes P flags n f).2.mem = f.mem ∧
    writeCount (getConfigTimes P flags n f).2.log = writeCount f.log ∧
    eraseCount (getConfigTimes P flags n f).2.log = eraseCount f.log := by
  induction n generalizing f with
  | zero => exact ⟨rfl, rfl, rfl, rfl⟩
  | succ n ih =>
    have hg := get_facts P P.EEPROM_CONFIG_ADDRESS (List.replicate P.sizeofConfiguration 0) f
    have e := getConfig_loaded P flags f h
    have hmem : (getConfig P flags f).2.mem = f.mem := by rw [e]; exact hg.1
    have h2 : storedVersion P (getConfig P flags f).2 = P.EEPROM_CONFIG_VERSION := by
      rw [storedVersion_congr P _ f hmem]; exact h
    have ih2 := ih (getConfig P flags f).2 h2
    have same : (getConfig P flags (getConfig P flags f).2).1 = (getConfig P flags f).1 := by
      rw [getConfig_loaded P flags _ h2, e]
      simp only
      rw [get_congr P _ _ _ f hg.1]
    unfold getConfigTimes
    refine ⟨?_, ?_, ?_, ?_⟩
    · simp only [ih2.1, same, List.replicate_succ]
    · simp only [ih2.2.1, hmem]
    · simp only [ih2.2.2.1]
      rw [e]; exact hg.2.2.1
    · simp only [ih2.2.2.2]
      rw [e]; exact hg.2.2.2

/-- Witness for `getConfig_idempotent`: three calls on a device that holds a saved
record. -/
theorem getConfig_idempotent_witness :
    (getConfigTimes defaultParams EE_NONE 3 savedFlash).1
        = List.replicate 3 (getConfig defaultParams EE_NONE savedFlash).1 ∧
    (getConfigTimes defaultParams EE_NONE 3 savedFlash).2.mem = savedFlash.mem ∧
    writeCount (getConfigTimes defaultParams EE_NONE 3 savedFlash).2.log
        = writeCount savedFlash.log ∧
    eraseCount (getConfigTimes defaultParams EE_NONE 3 savedFlash).2.log
        = eraseCount savedFlash.log :=
  getConfig_idempotent defaultParams EE_NONE 3 savedFlash (by decide)

/-! ## C4: setConfig followed by getConfig -/

/-- Reading back a range that was just programmed with `d` yields `d` itself when every
byte in the range had every bit of the corresponding byte of `d` set. -/
theorem readback_programmed (m : Nat → Nat) (a : Nat) (d : List Nat)
    (hbits : ∀ k, k < d.length → m (a + k) &&& d.getD k 0 = d.getD k 0) :
    (List.range d.length).map (fun k => Flash.program m a d (a + k)) = d := by
  apply List.ext_getElem
  · simp
  · intro i h1 h2
    have hb := hbits i h2
    rw [List.getD_eq_getElem d 0 h2] at hb
    simp only [List.getElem_map, List.getElem_range]
    rw [Flash.program_inside m a d i h2, List.getD_eq_getElem d 0xFF h2]
    exact hb

/-- The object that an in-range `get` returns. -/
theorem get_in_range (P : Params) (idx : Int) (t : List Nat) (f : Flash)
    (h0 : 0 ≤ idx) (h1 : idx + t.length ≤ P.EEPROM_SIZE) :
    (get P idx t f).1
      = (List.range t.length).map
          (fun k => f.mem (addr32 (P.EEPROM_FLASH_BASE_ADDR + idx.toNat) + k)) := by
  have e : (idx.toNat + t.length) % 2 ^ 32 ≤ P.EEPROM_SIZE :=
    le_trans (Nat.mod_le _ _) (by omega)
  have hg : ¬ (idx < 0 ∨ (idx.toNat + t.length) % 2 ^ 32 > P.EEPROM_SIZE) := by omega
  unfold get
  rw [if_neg hg]
  rfl

/-- The flash address of the `k`-th byte of an in-range object at offset `idx`. -/
theorem addr_offset (P : Params) (idx k : Nat)
    (hfit : P.EEPROM_FLASH_BASE_ADDR + P.EEPROM_SIZE ≤ 2 ^ 32)
    (hk : idx + k < P.EEPROM_SIZE) :
    addr32 (P.EEPROM_FLASH_BASE_ADDR + ((idx : Int) + (k : Int)).toNat)
      = addr32 (P.EEPROM_FLASH_BASE_ADDR + ((idx : Nat) : Int).toNat) + k := by
  unfold addr32
  have e1 : ((idx : Int) + (k : Int)).toNat = idx + k := by omega
  have e2 : ((idx : Nat) : Int).toNat = idx := by omega
  rw [e1, e2, Nat.mod_eq_of_lt (by omega), Nat.mod_eq_of_lt (by omega)]
  omega

/-- The flag word passed to `checkFlash` by `getConfig` always has `EE_INIT` set. -/
theorem init_flag_set (flags : Nat) : (flags ||| EE_INIT) &&& EE_INIT ≠ 0 := by
  unfold EE_INIT
  rw [Nat.and_one_is_mod]
  have : (flags ||| 1) % 2 = 1 := Nat.or_mod_two_eq_one.mpr (Or.inr rfl)
  omega

theorem read_snd_mem (P : Params) (idx : Int) (f : Flash) : (read P idx f).2.mem = f.mem := by
  unfold read
  split <;> rfl

/-- A byte `write` touches no address other than the one it programs. -/
theorem write_mem_other (P : Params) (idx : Int) (v : Nat) (f : Flash) (a : Nat)
    (ha : a ≠ addr32 (P.EEPROM_FLASH_BASE_ADDR + idx.toNat)) :
    (write P idx v f).mem a = f.mem a := by
  unfold write
  split
  · rfl
  · simp only [Flash.syncBlocks_mem, Flash.writeBuffer_mem]
    rw [Flash.program_single, if_neg ha]

/-- After a sector erase every byte is erased or holds what it held before. -/
theorem Flash.eraseSector_mem (f : Flash) (s a : Nat) :
    (f.eraseSector s).2.mem a = 0xFF ∨ (f.eraseSector s).2.mem a = f.mem a := by
  unfold Flash.eraseSector
  split
  · by_cases h : a / SECTOR_SIZE = s / SECTOR_SIZE
    · left; simp [h]
    · right; simp [h]
  · right; rfl

theorem eraseLoop_mem (P : Params) :
    ∀ (r i : Nat) (f : Flash) (a : Nat),
      (eraseLoop P r i f).2.mem a = 0xFF ∨ (eraseLoop P r i f).2.mem a = f.mem a := by
  intro r
  induction r with
  | zero => intro i f a; right; rfl
  | succ r ih =>
    intro i f a
    unfold eraseLoop
    simp only
    split
    · exact Flash.eraseSector_mem f _ a
    · rcases ih (i + 1) (f.eraseSector (addr32 (P.EEPROM_FLASH_BASE_ADDR + i * 4096))).2 a
        with h | h
      · exact Or.inl h
      · rw [h]; exact Flash.eraseSector_mem f _ a

/-- After `checkFlash`, every byte other than the probed one is erased or holds what it
held before. -/
theorem checkFlash_mem_other (P : Params) (flags : Nat) (f : Flash) (a : Nat)
    (ha : a ≠ addr32 (P.EEPROM_FLASH_BASE_ADDR + (((P.EEPROM_SIZE : Int) - 1) % 65536).toNat)) :
    (checkFlash P flags f).2.mem a = 0xFF ∨ (checkFlash P flags f).2.mem a = f.mem a := by
  have hw : ∀ (v : Nat) (g : Flash),
      (write P (((P.EEPROM_SIZE : Int) - 1) % 65536) v g).mem a = g.mem a :=
    fun v g => write_mem_other P _ v g a ha
  unfold checkFlash
  simp only
  split
  · split
    · rcases eraseLoop_mem P (((P.EEPROM_SIZE + 4095) / 4096) % 2 ^ 32) 0
          (read P (((P.EEPROM_SIZE : Int) - 1) % 65536)
            (write P (((P.EEPROM_SIZE : Int) - 1) % 65536) 0xAA
              (read P (((P.EEPROM_SIZE : Int) - 1) % 65536) f).2)).2 a with h | h
      · left; exact h
      · right
        unfold eraseFlash
        simp only
        rw [h, read_snd_mem, hw, read_snd_mem]
    · right
      simp only
      rw [read_snd_mem, hw, read_snd_mem]
  · right
    simp only
    rw [hw, read_snd_mem, hw, read_snd_mem]

theorem defaultsRecord_length (P : Params) :
    (defaultsRecord P).length = P.defaultConfiguration.length := by
  simp [defaultsRecord, Configuration.setVersion]

theorem defaultsRecord_version (P : Params) (hpos : 0 < P.defaultConfiguration.length)
    (hv : P.EEPROM_CONFIG_VERSION < 256) :
    Configuration.version (defaultsRecord P) = P.EEPROM_CONFIG_VERSION := by
  unfold Configuration.version defaultsRecord Configuration.setVersion
  rw [List.getD_eq_getElem _ 0 (by simpa using hpos)]
  simp [Nat.mod_eq_of_lt hv]

theorem defaultsRecord_bytes (P : Params) (hbytes : ∀ b ∈ P.defaultConfiguration, b < 256)
    (k : Nat) (hk : k < (defaultsRecord P).length) : (defaultsRecord P).getD k 0 < 256 := by
  rw [List.getD_eq_getElem _ 0 hk]
  unfold defaultsRecord Configuration.setVersion
  rw [List.getElem_set]
  split
  · exact Nat.mod_lt _ (by norm_num)
  · apply hbytes
    exact List.getElem_mem _

/-- The branch of `getConfig` taken when the stored version differs and `EE_INIT` is
requested. -/
theorem getConfig_fallback_init (P : Params) (flags : Nat) (f : Flash)
    (hinit : flags &&& EE_INIT ≠ 0) (hver : storedVersion P f ≠ P.EEPROM_CONFIG_VERSION) :
    getConfig P flags f
      = (defaultsRecord P,
         put P P.EEPROM_CONFIG_ADDRESS (defaultsRecord P)
          (checkFlash P (flags ||| EE_INIT)
            (get P P.EEPROM_CONFIG_ADDRESS (List.replicate P.sizeofConfiguration 0) f).2).2) := by
  unfold storedVersion at hver
  unfold getConfig
  simp only [hver, if_false, hinit, ne_eq, not_false_eq_true, if_true, setConfig]

/-- A further state on which the defaults are not persisted: flash whose every byte
holds 0xAA has a stored version (0xAA) different from `EEPROM_CONFIG_VERSION`, the probe
of `checkFlash` succeeds so nothing is erased, and `put` can only clear bits: after
`getConfig(EE_INIT)` the bytes at the config offset are not those of the returned
default record. -/
theorem getConfig_fallback_on_AA_flash :
    storedVersion defaultParams (uniformFlash 0xAA) ≠ defaultParams.EEPROM_CONFIG_VERSION ∧
    (getConfig defaultParams EE_INIT (uniformFlash 0xAA)).1
      = [1, 0, 0x10, 0x20, 0x30, 0x40, 0x50, 0x60] ∧
    (get defaultParams defaultParams.EEPROM_CONFIG_ADDRESS (List.replicate 8 0)
        (getConfig defaultParams EE_INIT (uniformFlash 0xAA)).2).1
      = [0, 0, 0, 0x20, 0x20, 0, 0, 0x20] ∧
    (get defaultParams defaultParams.EEPROM_CONFIG_ADDRESS (List.replicate 8 0)
        (getConfig defaultParams EE_INIT (uniformFlash 0xAA)).2).1
      ≠ (getConfig defaultParams EE_INIT (uniformFlash 0xAA)).1 := by
  decide

/-- Where the fallback branch does persist the defaults. For every storage state in
which the stored version differs from `EEPROM_CONFIG_VERSION`, `getConfig` with
`EE_INIT` runs `checkFlash` (with `EE_INIT` set), then calls `put` with the default
record at the config offset, and returns the default record, whose version equals
`EEPROM_CONFIG_VERSION` (a byte value). With `EEPROM_SIZE <= 65536`, the region inside
the 32-bit address space and the footprint below the probed offset `EEPROM_SIZE - 1`,
the bytes at the config offset afterwards are those of the returned record whenever
every byte of the footprint had, before the call, every bit of the corresponding
default byte set: this covers freshly erased flash, the first-boot scenario. -/
theorem getConfig_fallback_persists (P : Params) (flags : Nat) (f : Flash)
    (hinit : flags &&& EE_INIT ≠ 0) (hver : storedVersion P f ≠ P.EEPROM_CONFIG_VERSION) :
    (getConfig P flags f).1 = defaultsRecord P ∧
    (0 < P.defaultConfiguration.length → P.EEPROM_CONFIG_VERSION < 256 →
      Configuration.version (getConfig P flags f).1 = P.EEPROM_CONFIG_VERSION) ∧
    (getConfig P flags f).2
      = put P P.EEPROM_CONFIG_ADDRESS (defaultsRecord P)
          (checkFlash P (flags ||| EE_INIT)
            (get P P.EEPROM_CONFIG_ADDRESS (List.replicate P.sizeofConfiguration 0) f).2).2 ∧
    (P.EEPROM_FLASH_BASE_ADDR + P.EEPROM_SIZE ≤ 2 ^ 32 → P.EEPROM_SIZE ≤ 65536 →
      P.defaultConfiguration.length = P.sizeofConfiguration →
      (∀ b ∈ P.defaultConfiguration, b < 256) →
      P.EEPROM_CONFIG_ADDRESS + P.sizeofConfiguration < P.EEPROM_SIZE →
      (∀ k : Nat, k < P.sizeofConfiguration →
        (read P (P.EEPROM_CONFIG_ADDRESS + k) f).1 &&& (defaultsRecord P).getD k 0
          = (defaultsRecord P).getD k 0) →
      (get P P.EEPROM_CONFIG_ADDRESS (List.replicate P.sizeofConfiguration 0)
          (getConfig P flags f).2).1 = (getConfig P flags f).1) := by
  have e := getConfig_fallback_init P flags f hinit hver
  refine ⟨by rw [e], ?_, by rw [e], ?_⟩
  · intro hpos hv
    rw [e]
    exact defaultsRecord_version P hpos hv
  · intro hfit hsize hdlen hbytes hfoot hbits
    rw [e]
    simp only
    have h0 : (0 : Int) ≤ (P.EEPROM_CONFIG_ADDRESS : Int) := by omega
    have hlen : (defaultsRecord P).length = P.sizeofConfiguration := by
      rw [defaultsRecord_length, hdlen]
    rw [get_in_range P _ _ _ h0 (by simp; omega), put_mem P _ _ _ h0 (by rw [hlen]; omega)]
    simp only [List.length_replicate]
    have key := readback_programmed
      (checkFlash P (flags ||| EE_INIT)
        (get P P.EEPROM_CONFIG_ADDRESS (List.replicate P.sizeofConfiguration 0) f).2).2.mem
      (addr32 (P.EEPROM_FLASH_BASE_ADDR + ((P.EEPROM_CONFIG_ADDRESS : Nat) : Int).toNat))
      (defaultsRecord P) (by
        intro k hk
        rw [hlen] at hk
        have hb := hbits k hk
        rw [read_in_range P _ f (by omega) (by omega),
          addr_offset P P.EEPROM_CONFIG_ADDRESS k hfit (by omega)] at hb
        have hne :
            addr32 (P.EEPROM_FLASH_BASE_ADDR + ((P.EEPROM_CONFIG_ADDRESS : Nat) : Int).toNat) + k
              ≠ addr32 (P.EEPROM_FLASH_BASE_ADDR
                  + (((P.EEPROM_SIZE : Int) - 1) % 65536).toNat) := by
          have e1 : (((P.EEPROM_SIZE : Int) - 1) % 65536).toNat = P.EEPROM_SIZE - 1 := by omega
          have e2 : ((P.EEPROM_CONFIG_ADDRESS : Nat) : Int).toNat = P.EEPROM_CONFIG_ADDRESS := by
            omega
          rw [e1, e2]
          unfold addr32
          rw [Nat.mod_eq_of_lt (by omega), Nat.mod_eq_of_lt (by omega)]
          omega
        have hgm := (get_facts P P.EEPROM_CONFIG_ADDRESS
          (List.replicate P.sizeofConfiguration 0) f).1
        rcases checkFlash_mem_other P (flags ||| EE_INIT)
          (get P P.EEPROM_CONFIG_ADDRESS (List.replicate P.sizeofConfiguration 0) f).2
          _ hne with h | h
        · rw [h]
          exact erased_and _ (defaultsRecord_bytes P hbytes k (by rw [hlen]; exact hk))
        · rw [h, hgm]; exact hb)
    rw [hlen] at key
    exact key

/-- First boot of the default build (`EEPROM_SIZE` 4096, base 0x100000, version 1) on
freshly erased flash: the version mismatch is detected, the default record with
version 1 is returned, and afterwards the config offset holds that record. -/
theorem getConfig_first_boot :
    storedVersion defaultParams erasedFlash = 0xFF ∧
    (getConfig defaultParams EE_INIT erasedFlash).1 = defaultsRecord defaultParams ∧
    Configuration.version (getConfig defaultParams EE_INIT erasedFlash).1 = 1 ∧
    (get defaultParams defaultParams.EEPROM_CONFIG_ADDRESS
        (List.replicate defaultParams.sizeofConfiguration 0)
        (getConfig defaultParams EE_INIT erasedFlash).2).1
      = (getConfig defaultParams EE_INIT erasedFlash).1 :=
  ⟨by decide,
   (getConfig_fallback_persists defaultParams EE_INIT erasedFlash (by decide) (by decide)).1,
   (getConfig_fallback_persists defaultParams EE_INIT erasedFlash (by decide) (by decide)).2.1
     (by decide) (by decide),
   (getConfig_fallback_persists defaultParams EE_INIT erasedFlash (by decide) (by decide)).2.2.2
     (by decide) (by decide) (by decide) (by decide) (by decide) (by decide)⟩

/-- C5 (evaluation at the failing input): the device has been through a first boot of
the default build, so it holds the version-1 default record and the probed last offset
holds 0xAA; the firmware is then updated to `EEPROM_CONFIG_VERSION` 2. The stored
version (1) differs from the expected 2, so `getConfig(EE_INIT)` takes the fallback
branch and returns the default record with version 2. The probe of `checkFlash`
succeeds, so nothing is erased, and `put` of the new record can only clear bits: the
config offset afterwards holds version byte 0, not the returned record, and the stored
version still differs from `EEPROM_CONFIG_VERSION`, so every later boot falls back
again. -/
theorem getConfig_init_not_persisted :
    storedVersion paramsVersion2 bootedFlash = 1 ∧
    storedVersion paramsVersion2 bootedFlash ≠ paramsVersion2.EEPROM_CONFIG_VERSION ∧
    (checkFlash paramsVersion2 (EE_INIT ||| EE_INIT) bootedFlash).1 = true ∧
    eraseCount (getConfig paramsVersion2 EE_INIT bootedFlash).2.log
      = eraseCount bootedFlash.log ∧
    (getConfig paramsVersion2 EE_INIT bootedFlash).1
      = [2, 0, 0x10, 0x20, 0x30, 0x40, 0x50, 0x60] ∧
    (get paramsVersion2 paramsVersion2.EEPROM_CONFIG_ADDRESS (List.replicate 8 0)
        (getConfig paramsVersion2 EE_INIT bootedFlash).2).1
      = [0, 0, 0x10, 0x20, 0x30, 0x40, 0x50, 0x60] ∧
    (get paramsVersion2 paramsVersion2.EEPROM_CONFIG_ADDRESS (List.replicate 8 0)
        (getConfig paramsVersion2 EE_INIT bootedFlash).2).1
      ≠ (getConfig paramsVersion2 EE_INIT bootedFlash).1 ∧
    storedVersion paramsVersion2 (getConfig paramsVersion2 EE_INIT bootedFlash).2
      ≠ paramsVersion2.EEPROM_CONFIG_VERSION := by
  decide

/-! ## C6: wipeConfig -/

/-- Writing 0xFF with `update` never changes a stored byte: programming can only clear
bits and 0xFF clears none. -/
theorem update_FF_mem (P : Params) (idx : Int) (f : Flash) (hb : ∀ a, f.mem a < 256) :
    (update P idx 0xFF f).mem = f.mem := by
  rcases update_mem_cases P idx 0xFF f with h | h
  · exact h
  · rw [h]
    unfold write
    split
    · rfl
    · funext b
      simp only [Flash.syncBlocks_mem, Flash.writeBuffer_mem]
      rw [Flash.program_single]
      split
      · have e := Nat.and_pow_two_sub_one_eq_mod (f.mem b) 8
        have e255 : (2 : Nat) ^ 8 - 1 = 0xFF := by norm_num
        rw [e255] at e
        rw [e]
        exact Nat.mod_eq_of_lt (by simpa using hb b)
      · rfl

/-- The loop of `wipeConfig` leaves every stored byte as it was. -/
theorem wipeLoop_mem (P : Params) :
    ∀ (count i : Nat) (f : Flash), (∀ a, f.mem a < 256) → (wipeLoop P count i f).mem = f.mem := by
  intro count
  induction count with
  | zero => intro i f _; rfl
  | succ n ih =>
    intro i f hb
    unfold wipeLoop
    have hm := update_FF_mem P (i : Int) f hb
    rw [ih (i + 1) (update P i 0xFF f) (by rw [hm]; exact hb), hm]

/-- Whenever `wipeConfig` returns, on a device holding byte values, the stored bytes are
exactly those from before the call. -/
theorem wipeConfig_mem (P : Params) (flags : Nat) (f g : Flash) (hb : ∀ a, f.mem a < 256)
    (h : wipeConfig P flags f = some g) : g.mem = f.mem := by
  unfold wipeConfig at h
  simp only at h
  split at h
  · cases h; rfl
  · split at h
    · cases h
      exact wipeLoop_mem P _ _ f hb
    · cases h

/-- C6 (evaluation at the failing input): on flash that holds a saved record,
`wipeConfig` terminates, issues one `writeBuffer` of 0xFF for each of the eight footprint
bytes, and yet leaves every stored byte as it was: the footprint does not read 0xFF, the
stored version still equals `EEPROM_CONFIG_VERSION`, and the subsequent `getConfig`
returns the stored record (marked loaded) and not the default record. -/
theorem wipeConfig_keeps_record :
    (wipeConfig defaultParams EE_NONE savedFlash).map
        (fun g => ((get defaultParams 0 (List.replicate 8 0) g).1,
                   storedVersion defaultParams g,
                   (getConfig defaultParams EE_NONE g).1,
                   writeCount g.log - writeCount savedFlash.log))
      = some ([1, 0, 0xDE, 0xAD, 0xBE, 0xEF, 0x01, 0x02], 1,
              [1, 1, 0xDE, 0xAD, 0xBE, 0xEF, 0x01, 0x02], 8) ∧
    defaultsRecord defaultParams = [1, 0, 0x10, 0x20, 0x30, 0x40, 0x50, 0x60] := by
  decide

/-! ## C9: checkFlash -/

/-- Whenever `checkFlash` reports success (with `1 <= EEPROM_SIZE <= 65536`), the
probed offset `EEPROM_SIZE - 1` reads 0xAA afterwards, whatever it held before: the
restoring write cannot set the bits that the probe cleared. -/
theorem checkFlash_success_probe (P : Params) (flags : Nat) (f : Flash)
    (h1 : 1 ≤ P.EEPROM_SIZE) (h2 : P.EEPROM_SIZE ≤ 65536)
    (hok : (checkFlash P flags f).1 = true) :
    (read P ((P.EEPROM_SIZE : Int) - 1) (checkFlash P flags f).2).1 = 0xAA := by
  have et : ((P.EEPROM_SIZE : Int) - 1) % 65536 = (P.EEPROM_SIZE : Int) - 1 := by omega
  have r0 : (0 : Int) ≤ (P.EEPROM_SIZE : Int) - 1 := by omega
  have r1 : (P.EEPROM_SIZE : Int) - 1 < P.EEPROM_SIZE := by omega
  have hback : (read P ((P.EEPROM_SIZE : Int) - 1)
      (write P ((P.EEPROM_SIZE : Int) - 1) 0xAA
        (read P ((P.EEPROM_SIZE : Int) - 1) f).2)).1
      = (read P ((P.EEPROM_SIZE : Int) - 1) f).1 &&& 0xAA := by
    rw [(read_after_write P _ 0xAA (read P ((P.EEPROM_SIZE : Int) - 1) f).2 r0 r1)]
    rw [read_congr P _ _ f (read_snd_mem P _ f)]
  by_cases hb : (read P ((P.EEPROM_SIZE : Int) - 1) f).1 &&& 0xAA = 0xAA
  · have hres : checkFlash P flags f
        = (true, write P ((P.EEPROM_SIZE : Int) - 1) (read P ((P.EEPROM_SIZE : Int) - 1) f).1
            (read P ((P.EEPROM_SIZE : Int) - 1)
              (write P ((P.EEPROM_SIZE : Int) - 1) 0xAA
                (read P ((P.EEPROM_SIZE : Int) - 1) f).2)).2) := by
      unfold checkFlash
      simp only [et, hback, hb, ne_eq, not_true_eq_false, if_false]
    rw [hres]
    simp only
    rw [read_after_write P _ _ _ r0 r1,
      read_congr P _ _ _ (read_snd_mem P _ _), hback, hb, Nat.and_comm]
    exact hb
  · have hres : (checkFlash P flags f).1 = false := by
      unfold checkFlash
      simp only [et, hback, hb, ne_eq, not_false_eq_true, if_true]
      split <;> rfl
    rw [hres] at hok
    exact absurd hok (by decide)

/-- C9 (evaluation at the failing input): on freshly erased flash `checkFlash` takes the
success path and returns true, its restoring `write` of the original 0xFF is issued, and
yet offset `EEPROM_SIZE - 1`, which read 0xFF before the call, reads 0xAA after it. -/
theorem checkFlash_leaves_probe :
    (read defaultParams 4095 erasedFlash).1 = 0xFF ∧
    (checkFlash defaultParams EE_NONE erasedFlash).1 = true ∧
    (checkFlash defaultParams EE_NONE erasedFlash).2.log
      = [DevOp.read8 0x100FFF, DevOp.writeBuffer 0x100FFF [0xAA], DevOp.syncBlocks,
         DevOp.read8 0x100FFF, DevOp.writeBuffer 0x100FFF [0xFF], DevOp.syncBlocks] ∧
    (read defaultParams 4095 (checkFlash defaultParams EE_NONE erasedFlash).2).1 = 0xAA := by
  decide

/-! ## C11: load -/

theorem trim_length_le (s : Text) : (trim s).length ≤ s.length := by
  unfold trim
  rw [List.length_reverse]
  refine le_trans (List.Sublist.length_le (List.dropWhile_sublist _)) ?_
  rw [List.length_reverse]
  exact List.Sublist.length_le (List.dropWhile_sublist _)

/-- Dropping the two characters just parsed leaves a strictly shorter string. -/
theorem substringFrom_two_length (s : Text) (h : s.length ≠ 0) :
    (substringFrom s 2).length < s.length := by
  unfold substringFrom substring
  split
  · simp only [List.length_nil]; omega
  · simp only [List.length_drop, List.length_take]; omega

/-- The inner loop of `load` ends within as many iterations as `dataStr` has
characters. -/
theorem loadData_returns (P : Params) (address offset : Int) :
    ∀ (fuel : Nat) (dataStr : Text) (count : Int) (f : Flash), dataStr.length ≤ fuel →
      (loadData P address offset fuel dataStr count f).isSome = true := by
  intro fuel
  induction fuel with
  | zero =>
    intro dataStr count f h
    have h0 : dataStr.length = 0 := by omega
    simp [loadData, h0]
  | succ fuel ih =>
    intro dataStr count f h
    unfold loadData
    split
    · rfl
    · rename_i hne
      split
      · rfl
      · apply ih
        have h1 := trim_length_le (substringFrom dataStr 2)
        have h2 := substringFrom_two_length dataStr hne
        omega

/-- The line loop of `load` returns for every file. -/
theorem loadLines_returns (P : Params) (start : Int) :
    ∀ (lines : List String) (offset : Int) (f : Flash),
      (loadLines P start lines offset f).isSome = true := by
  intro lines
  induction lines with
  | nil => intro offset f; rfl
  | cons raw rest ih =>
    intro offset f
    unfold loadLines
    simp only
    split
    · split
      · split
        · rename_i hnone
          have hs := loadData_returns P
            (toUInt16 (strtol (trim (substring (trim raw.toList) 0
              (indexOf (trim raw.toList) ':').toNat)) 0))
            (if start ≥ 0 ∧ offset = 0 then
              toInt16 (start - toUInt16 (strtol (trim (substring (trim raw.toList) 0
                (indexOf (trim raw.toList) ':').toNat)) 0))
             else offset)
            _ (trim (substringFrom (trim raw.toList)
              ((indexOf (trim raw.toList) ':').toNat + 1))) 0 f (le_refl _)
          rw [hnone] at hs
          exact absurd hs (by decide)
        · rfl
        · exact ih _ _
      · exact ih _ _
    · exact ih _ _

/-- Function `load` returns for every file, start offset and device state. -/
theorem load_returns (P : Params) (file : Option (List String)) (start : Int) (flags : Nat)
    (f : Flash) : (load P file start flags f).isSome = true := by
  unfold load
  split
  · rfl
  · split
    · rfl
    · exact loadLines_returns P start _ _ _

/-- Without relocation (`start = -1`) every byte of the sample file goes to its own
file address, and with `start = 0x20` both lines are moved by the same offset, to 0x20
and 0x30. -/
theorem load_sample_relocated :
    (load defaultParams (some sampleImage) (-1) EE_NONE erasedFlash).map
        (fun r => (r.1, (get defaultParams 0x00 [0, 0] r.2).1, (get defaultParams 0x10 [0, 0] r.2).1))
      = some (true, [0x01, 0x02], [0x03, 0x04]) ∧
    (load defaultParams (some sampleImage) 0x20 EE_NONE erasedFlash).map
        (fun r => (r.1, (get defaultParams 0x20 [0, 0] r.2).1, (get defaultParams 0x30 [0, 0] r.2).1))
      = some (true, [0x01, 0x02], [0x03, 0x04]) := by
  decide

/-- A file whose first data line lies more than 32768 above `start` is rejected although
every target offset is in range: `start - address` does not fit the `int16_t` variable
`offset`, here 0 - 0x9000 becomes 28672, and the range check then sees offset 65536. -/
theorem load_far_address_rejected :
    (load defaultParams (some ["# eeprom", "0x9000: 01 02"]) 0 EE_NONE erasedFlash).map
        (fun r => (r.1, r.2.log))
      = some (false, []) := by
  decide

/-- C11 (evaluation at the failing input): the sample file has its first data line at
file address 0x0000 and is loaded with `start = 0`, so every byte should be written to
its own file address. `load` returns true, but the bytes 03 04 of the line at 0x0010
are written with `update` to offsets 0 and 1, on top of the first line, and offsets
0x10 and 0x11 are never touched: the variable `offset` is still 0 after the first line
and is computed again, as `start - 0x0010`, for the second. -/
theorem load_start_at_first_address :
    (load defaultParams (some sampleImage) 0 EE_NONE erasedFlash).map
        (fun r => (r.1, r.2.log, (read defaultParams 0x10 r.2).1, (read defaultParams 0x11 r.2).1))
      = some (true,
          [DevOp.read8 0x100000, DevOp.writeBuffer 0x100000 [0x01], DevOp.syncBlocks,
           DevOp.read8 0x100001, DevOp.writeBuffer 0x100001 [0x02], DevOp.syncBlocks,
           DevOp.read8 0x100000, DevOp.writeBuffer 0x100000 [0x03], DevOp.syncBlocks,
           DevOp.read8 0x100001, DevOp.writeBuffer 0x100001 [0x04], DevOp.syncBlocks],
          0xFF, 0xFF) := by
  decide

end EepromShim
